import Mathlib

/-!
Verification of the BSDF format converter
(`ansys_optical_automation/interop_process/Convert_BSDF_Zemax_to_Speos.py`).

The development shallowly embeds the angular-grid resampler, the normalizer,
the precision-resolution routine, the header checks of the two readers and the
value serialization of the two writers.  Exact rational numbers (`ℚ`) stand in
for Python floats wherever the computations are field arithmetic and rounding;
the two trigonometric coordinate-transform functions are embedded over `ℝ`.
Python's `round` builtin (banker's rounding, ties to even) is modelled by
`roundHalfEven`.
-/

namespace BsdfConv

/-- Scatter type tag; the source carries it as the strings "BRDF"/"BTDF". -/
inductive ScatterType
  | BRDF
  | BTDF
deriving DecidableEq, Repr

/-- Symmetry tag; the source carries it as strings such as "PlaneSymmetrical". -/
inductive Symmetry
  | PlaneSymmetrical
  | Asymmetrical
  | Asymmetrical4D
deriving DecidableEq, Repr

/-- Python's builtin `round(x)`: round half to even (banker's rounding),
returning an integer.  Defined for any linear ordered field with floor. -/
def roundHalfEven {α : Type} [LinearOrderedField α] [FloorRing α] (x : α) : ℤ :=
  if Int.fract x < 1 / 2 then ⌊x⌋
  else if 1 / 2 < Int.fract x then ⌈x⌉
  else if Even ⌊x⌋ then ⌊x⌋ else ⌈x⌉

/-- Python's `round(x, n)` for `n` decimal digits (result is again a number,
not an integer). -/
def pyRoundDigits {α : Type} [LinearOrderedField α] [FloorRing α] (x : α) (n : ℕ) : α :=
  (roundHalfEven (x * 10 ^ n) : ℤ) / 10 ^ n

/-- Source `round_to_multiple` (line 1151): `multiple * round(number / multiple)`. -/
def round_to_multiple (number multiple : ℚ) : ℚ :=
  multiple * roundHalfEven (number / multiple)

/-- The spec's words only: "the nearest 0.5-degree multiple" of `x`
(ties resolved to even like Python's `round` builtin, which the spec's
"rounded to the nearest 0.5° multiple" implicitly delegates to). -/
def nearestHalfMultiple (x : ℚ) : ℚ :=
  (roundHalfEven (2 * x) : ℚ) / 2

/-- Source `phi_theta_recommended_precision` (lines 1108-1148) over `ℚ`.
Only the lengths of the axis lists matter.  Mirrors the source's quirk that
the azimuth cap test compares against `nbTheta_max`, and its two-step
rounding: `round(·, 1)` followed by `round_to_multiple(·, 0.5)`. -/
def phi_theta_recommended_precision (scatterRadial scatterAzimuth : List ℚ)
    (symmetry : Symmetry) : ℚ × ℚ :=
  let nbTheta_max : ℕ := 1000
  let theta_max : ℚ := 90
  let phi_max : ℚ := if symmetry = .PlaneSymmetrical then 180 else 360
  let nbPhi_max : ℕ := if symmetry = .PlaneSymmetrical then 500 else 1000
  let precisionTheta :=
    if scatterRadial.length > nbTheta_max then
      pyRoundDigits (theta_max / ((nbTheta_max : ℚ) - 1)) 1
    else
      pyRoundDigits (theta_max / ((scatterRadial.length : ℚ) - 1)) 1
  let precisionTheta := round_to_multiple precisionTheta (1 / 2)
  let precisionPhi :=
    if scatterAzimuth.length > nbTheta_max then
      pyRoundDigits (phi_max / ((nbPhi_max : ℚ) - 1)) 1
    else
      pyRoundDigits (phi_max / ((scatterAzimuth.length : ℚ) - 1)) 1
  let precisionPhi := round_to_multiple precisionPhi (1 / 2)
  (precisionTheta, precisionPhi)

/-- The loop body of Python's `bisect.bisect_left` (`while lo < hi` with
`mid = (lo + hi) // 2`), driven by a fuel argument.  The fuel only bounds the
number of iterations; `fuel ≥ hi - lo` makes it equivalent to the `while`
loop, and `bisect_left` below always supplies enough. -/
def bisectLoop (a : List ℚ) (x : ℚ) : ℕ → ℕ → ℕ → ℕ
  | 0, lo, _ => lo
  | fuel + 1, lo, hi =>
    if lo < hi then
      if a.getD ((lo + hi) / 2) 0 < x then
        bisectLoop a x fuel ((lo + hi) / 2 + 1) hi
      else
        bisectLoop a x fuel lo ((lo + hi) / 2)
    else lo

/-- Python's `bisect.bisect_left(a, x)` over the whole list. -/
def bisect_left (a : List ℚ) (x : ℚ) : ℕ :=
  bisectLoop a x a.length 0 a.length

/-- Theta-axis bracket search of the resampler (source lines 841-856):
returns `(indexInfTheta, indexSupTheta, coeffTheta)`. -/
def bracketTheta (axis : List ℚ) (v : ℚ) : ℕ × ℕ × ℚ :=
  let idx := bisect_left axis v
  if idx = 0 then (0, 0, 0)
  else if idx ≤ axis.length - 1 then
    (idx - 1, idx,
      (v - axis.getD (idx - 1) 0) / (axis.getD idx 0 - axis.getD (idx - 1) 0))
  else (idx - 1, idx - 1, 0)

/-- Phi-axis bracket search of the resampler (source lines 858-872):
returns `(indexInfPhi, indexSupPhi, coeffPhi)`.  Note the final branch
(search past the last index) sets `indexSupPhi = indexInfPhi + 1`, unlike the
theta branch above which collapses both indices. -/
def bracketPhi (axis : List ℚ) (v : ℚ) : ℕ × ℕ × ℚ :=
  let idx := bisect_left axis v
  if idx = 0 then (0, 0, 0)
  else if idx ≤ axis.length - 1 then
    (idx - 1, idx,
      (v - axis.getD (idx - 1) 0) / (axis.getD idx 0 - axis.getD (idx - 1) 0))
  else (idx - 1, idx - 1 + 1, 0)

/-- Bilinear blend of the four corner samples (source lines 874-889).
`block p t` is `bsdfData[i][j][p][t]` (azimuth-major, as in the Zemax path). -/
def bilinearBlend (block : ℕ → ℕ → ℚ) (tb pb : ℕ × ℕ × ℚ) : ℚ :=
  let bsdf1 := block pb.1 tb.1
  let bsdf2 := block pb.1 tb.2.1
  let bsdf3 := block pb.2.1 tb.1
  let bsdf4 := block pb.2.1 tb.2.1
  let bsdfN1 := bsdf1 * (1 - tb.2.2) + bsdf2 * tb.2.2
  let bsdfN2 := bsdf3 * (1 - tb.2.2) + bsdf4 * tb.2.2
  bsdfN1 * (1 - pb.2.2) + bsdfN2 * pb.2.2

/-- Symmetry folding of the transformed azimuth (source lines 833-834). -/
def foldPhi (symmetry : Symmetry) (phi : ℚ) : ℚ :=
  if symmetry = .PlaneSymmetrical ∧ phi > 180 then 360 - phi else phi

/-- One target cell of the resampler after the coordinate transform
(source lines 829-890): zero-fill for unreachable directions, symmetry
folding, bracket search on both source axes, bilinear interpolation. -/
def resampleCell (symmetry : Symmetry) (radial azimuth : List ℚ)
    (block : ℕ → ℕ → ℚ) (newTheta newPhi : ℚ) : ℚ :=
  if newTheta > 90 ∨ newTheta < 0 then 0
  else
    let phiF := foldPhi symmetry newPhi
    bilinearBlend block (bracketTheta radial newTheta) (bracketPhi azimuth phiF)

/-- A Python runtime value, as far as the header checks need: Python's `==`
between a `str` and an `int` is well-defined and always `False`. -/
inductive PyVal
  | str (s : String)
  | int (n : ℤ)
deriving DecidableEq, Repr

/-- Python's `==` on `PyVal`: equality inside one type, `False` across types. -/
def pyEq : PyVal → PyVal → Bool
  | .str a, .str b => a == b
  | .int a, .int b => a == b
  | _, _ => false

/-- Python's `str.split(sep)` for a one-character separator, over the
character list of the string (empty fields are kept, as in Python). -/
def splitOnChar (sep : Char) : List Char → List (List Char)
  | [] => [[]]
  | c :: rest =>
    match splitOnChar sep rest with
    | [] => [[]]
    | h :: t => if c = sep then [] :: h :: t else (c :: h) :: t

/-- The value of an all-digit token (`none` on an empty token or any
non-digit character): the core of Python's `int`/`float` on the unsigned
tokens the header grammars produce. -/
def digitsToNat : List Char → Option ℕ
  | [] => none
  | l =>
    l.foldl
      (fun acc c =>
        acc.bind fun n => if c.isDigit then some (n * 10 + (c.toNat - 48)) else none)
      (some 0)

/-- Python's `float(s)` restricted to the unsigned decimal tokens
(`"7.0"`, `"0.5"`, `"30"`, ...) that the header grammar produces; `none`
models the `ValueError` raised on anything else. -/
def pyFloatQ (s : String) : Option ℚ :=
  match splitOnChar '.' s.data with
  | [a] => (digitsToNat a).map fun n => (n : ℚ)
  | [a, b] =>
    match digitsToNat a, digitsToNat b with
    | some n, some f => some ((n : ℚ) + (f : ℚ) / 10 ^ b.length)
    | _, _ => none
  | _ => none

/-- Python's `s[:-1]` (drop the trailing newline of a read line). -/
def pyDropLastChar (s : String) : String :=
  String.mk s.data.dropLast

/-- The `while tokens[-1] == "": tokens = tokens[:-1]` loop of
`read_zemax_bsdf` (source lines 288-289): strips empty trailing tokens. -/
def dropTrailingEmpty (l : List String) : List String :=
  (l.reverse.dropWhile fun s => s = "").reverse

/-- One axis step of `read_zemax_bsdf` (source lines 282-296 and the three
analogous blocks): the declared count is compared with the token count of the
values line.  The returned `Bool` is the "WARNING: Wrong data" message.  The
axis variable is assigned only in the `else` branch, so on a mismatch it is
left unbound (`none`): the function's own `return` statement then raises
`UnboundLocalError`.  In the `else` branch, `none` models the `ValueError` of
`float` on a malformed token. -/
def read_zemax_axis (declared : ℕ) (tokens : List String) :
    Bool × Option (List ℚ) :=
  let t := dropTrailingEmpty tokens
  if t.length ≠ declared then (true, none)
  else (false, t.mapM pyFloatQ)

/-- First line emitted by `write_speos_header_bsdf` (source line 611). -/
def speos_header_line1 : String :=
  "OPTIS - Anisotropic BSDF surface file v7.0\n"

/-- Version-token extraction of `read_speos_bsdf` (source lines 438-441):
`header = headerLine[:-1].split(" ")`, `version = header[-1]`, then
`float(version[1:])`. -/
def speosReaderVersion (line1 : String) : Option ℚ :=
  pyFloatQ (String.mk (((splitOnChar ' ' (pyDropLastChar line1).data).getLastD []).drop 1))

/-- The fatal version gate of `read_speos_bsdf` (source lines 441-446):
`true` when the reader prints the "format is not supported" warning and calls
`exit()`.  A token that `float` cannot parse also aborts (`ValueError`). -/
def speosReaderRejectsVersion (line1 : String) : Bool :=
  match speosReaderVersion line1 with
  | some v => decide (v < 8)
  | none => true

/-- The binary-flag gate of `read_speos_bsdf` (source lines 450-456):
`textorbinary = textorbinaryLine[:-1].split("\t")` followed by
`if textorbinary[0] == 0`.  The left operand is a `str`, the right an `int`,
so the Python comparison is the cross-type `==` of `pyEq`.  `true` would mean
the reader aborts on a binary file. -/
def speosBinaryFlagAborts (line2 : String) : Bool :=
  pyEq (.str (String.mk ((splitOnChar '\t' (pyDropLastChar line2).data).headD [])))
    (.int 0)

/-- One `(rotation, incidence)` slice of `normalize_bsdf_data`
(source lines 973-998) with the scipy quadrature result `rawIntegral`
taken as a parameter.  `IntegralValue = abs(r[0])`; when it is positive the
scale factor is `tis / IntegralValue`; otherwise the statement
`normalizationBsdf[i][j] == 1` is a bare comparison (not an assignment), so
the factor keeps its `np.zeros` value `0`; line 998 then multiplies the whole
block by the factor unconditionally. -/
def normalizeSlice (tis rawIntegral : ℚ) (block : ℕ → ℕ → ℚ) :
    ℚ × (ℕ → ℕ → ℚ) :=
  let integralValue := |rawIntegral|
  let factor := if integralValue > 0 then tis / integralValue else 0
  (factor, fun p t => block p t * factor)

noncomputable section RealEmbedding

open Real

/-- Python's `math.atan2(y, x)` over `ℝ` (the four-quadrant arctangent). -/
def atan2 (y x : ℝ) : ℝ :=
  if 0 < x then arctan (y / x)
  else if x < 0 then (if 0 ≤ y then arctan (y / x) + π else arctan (y / x) - π)
  else if 0 < y then π / 2
  else if y < 0 then -π / 2
  else 0

/-- Source `convert_normal_to_specular_using_cartesian` (lines 17-71) over
`ℝ`.  The cascaded `if` statements on `x_o`/`y_o` of lines 51-63 are encoded
in the same order; the two conditions of lines 60 and 62 are mutually
exclusive, and the final reference shift of lines 66-69 applies to every
branch. -/
def convert_normal_to_specular_using_cartesian (theta_i phi_i angle_inc : ℝ) :
    ℝ × ℝ :=
  let θ := theta_i * (π / 180)
  let φ := phi_i * (π / 180)
  let x_i := Real.sin θ * Real.cos φ
  let y_i := Real.sin θ * Real.sin φ
  let z_i := Real.cos θ
  let x_o := x_i * Real.cos (angle_inc * (π / 180)) -
    z_i * Real.sin (angle_inc * (π / 180))
  let y_o := y_i
  let z_o := x_i * Real.sin (angle_inc * (π / 180)) +
    z_i * Real.cos (angle_inc * (π / 180))
  let norm := Real.sqrt (x_o * x_o + y_o * y_o + z_o * z_o)
  let x_n := x_o * (1 / norm)
  let y_n := y_o * (1 / norm)
  let z_n := z_o * (1 / norm)
  let theta_o := Real.arccos z_n * (180 / π)
  let phi_o :=
    if x_n = 0 then
      (if 0 < y_n then (90 : ℝ) else if y_n < 0 then 270 else 0)
    else
      let p := Real.arctan (y_n / x_n) * (180 / π)
      let p := if x_n < 0 then 180 + p else p
      if 0 < x_n ∧ y_n < 0 then 360 + p else p
  let phi_o := if phi_o < 180 then phi_o + 180 else phi_o - 180
  (theta_o, phi_o)

/-- Source `convert_specular_to_normal_using_cartesian` (lines 74-123) over
`ℝ`.  Lines 108-114 are sequential `if` statements, so a later assignment
overwrites an earlier one: the final value is `270` when `y_o > 0`, `90` when
`y_o < 0`, and otherwise (`y_o = 0`, where `round(y_o, 0) == 0` always holds)
`phi_i * 180/π`.  Both outputs are rounded to two decimals (lines 120-121). -/
def convert_specular_to_normal_using_cartesian (theta_i phi_i angle_inc : ℝ) :
    ℝ × ℝ :=
  let θ := theta_i * (π / 180)
  let φ := phi_i * (π / 180)
  let x_i := Real.sin θ * Real.cos φ
  let y_i := Real.sin θ * Real.sin φ
  let z_i := Real.cos θ
  let x_o := -x_i * Real.cos (angle_inc * (π / 180)) +
    z_i * Real.sin (angle_inc * (π / 180))
  let y_o := y_i
  let z_o := x_i * Real.sin (angle_inc * (π / 180)) +
    z_i * Real.cos (angle_inc * (π / 180))
  let norm := Real.sqrt (x_o * x_o + y_o * y_o + z_o * z_o)
  let x_n := x_o * (1 / norm)
  let y_n := y_o * (1 / norm)
  let z_n := z_o * (1 / norm)
  let theta_o := Real.arccos z_n * (180 / π)
  let phi_o :=
    if pyRoundDigits x_n 2 = 0 then
      (if 0 < y_n then (270 : ℝ) else if y_n < 0 then 90 else φ * (180 / π))
    else
      let p := |atan2 y_n x_n * (180 / π)|
      if 0 < pyRoundDigits y_n 3 then 360 - p else p
  (pyRoundDigits theta_o 2, pyRoundDigits phi_o 2)

/-- The numeric values serialized by `write_speos_data_bsdf` for one
`(i, j)` block (source lines 1036-1045), one inner list per theta row `k`:
`BRDF` values go out unchanged, `BTDF` values are pre-multiplied by
`cos((180 - currentTheta) * π / 180)`.  (The surrounding `str(...)`
decimal formatting is abstracted to the number being formatted.) -/
def write_speos_data_values (scatterType : ScatterType) (line_theta : List ℝ)
    (block : ℕ → ℕ → ℝ) (nbTheta nbPhi : ℕ) : List (List ℝ) :=
  (List.range nbTheta).map fun k =>
    (List.range nbPhi).map fun p =>
      match scatterType with
      | .BRDF => block k p
      | .BTDF => Real.cos ((180 - line_theta.getD k 0) * (π / 180)) * block k p

/-- The numeric values serialized by `write_zemax_data_bsdf` for one
`(rotation, incidence)` block (source lines 1080-1086), one inner list per
outer-loop index `k` (which ranges over `bsdfData.shape[3]`): the entry for
`(k, l)` is `bsdfData[...][l][k]`, formatted with `"{:.3e}"` but otherwise
unmodified — in particular no cosine factor and no dependence on the scatter
type.  (The decimal formatting is abstracted to the number being formatted.) -/
def write_zemax_data_values (block : ℕ → ℕ → ℝ) (dim2 dim3 : ℕ) :
    List (List ℝ) :=
  (List.range dim3).map fun k =>
    (List.range dim2).map fun l => block l k

end RealEmbedding

/-- A strictly increasing axis, as required of the source angular grids. -/
def StrictAsc (l : List ℚ) : Prop :=
  l.Pairwise (· < ·)

instance (l : List ℚ) : Decidable (StrictAsc l) :=
  inferInstanceAs (Decidable (l.Pairwise _))

theorem roundHalfEven_eq_of_abs_lt {α : Type} [LinearOrderedField α] [FloorRing α]
    {x : α} {j : ℤ} (h : |x - j| < 1 / 2) : roundHalfEven x = j := by
  rw [abs_lt] at h
  obtain ⟨h1, h2⟩ := h
  rcases le_or_lt (j : α) x with hx | hx
  · have hfl : ⌊x⌋ = j := by
      rw [Int.floor_eq_iff]
      constructor
      · exact_mod_cast hx
      · linarith
    have hfr : Int.fract x < 1 / 2 := by
      rw [Int.fract]
      rw [hfl]
      linarith
    rw [roundHalfEven, if_pos hfr, hfl]
  · have hcl : ⌈x⌉ = j := by
      rw [Int.ceil_eq_iff]
      constructor
      · linarith
      · exact le_of_lt hx
    have hfl : ⌊x⌋ = j - 1 := by
      rw [Int.floor_eq_iff]
      push_cast
      constructor <;> linarith
    have hfr : 1 / 2 < Int.fract x := by
      rw [Int.fract, hfl]
      push_cast
      linarith
    rw [roundHalfEven, if_neg (by linarith), if_pos hfr, hcl]

theorem roundHalfEven_int_add_half {α : Type} [LinearOrderedField α] [FloorRing α]
    (j : ℤ) : roundHalfEven ((j : α) + 1 / 2) = if Even j then j else j + 1 := by
  have hfl : ⌊(j : α) + 1 / 2⌋ = j := by
    rw [Int.floor_eq_iff]
    constructor <;> linarith
  have hcl : ⌈(j : α) + 1 / 2⌉ = j + 1 := by
    rw [Int.ceil_eq_iff]
    push_cast
    constructor <;> linarith
  have hfr : Int.fract ((j : α) + 1 / 2) = 1 / 2 := by
    rw [Int.fract, hfl]
    ring
  rw [roundHalfEven, hfr]
  norm_num [hfl, hcl]

theorem abs_roundHalfEven_sub_le {α : Type} [LinearOrderedField α] [FloorRing α]
    (x : α) : |(roundHalfEven x : α) - x| ≤ 1 / 2 := by
  have hfl : (⌊x⌋ : α) ≤ x := Int.floor_le x
  have hfr0 : 0 ≤ Int.fract x := Int.fract_nonneg x
  have hceil : (⌈x⌉ : α) ≤ (⌊x⌋ : α) + 1 := by
    exact_mod_cast Int.ceil_le_floor_add_one x
  have hle : x ≤ (⌈x⌉ : α) := Int.le_ceil x
  have hfract : Int.fract x = x - ⌊x⌋ := rfl
  rw [roundHalfEven]
  split_ifs with h1 h2 h3 <;> rw [abs_le] <;> constructor <;> push_cast <;> linarith

theorem StrictAsc.getD_lt {l : List ℚ} (h : StrictAsc l) {i j : ℕ}
    (hij : i < j) (hj : j < l.length) : l.getD i 0 < l.getD j 0 := by
  have hi : i < l.length := lt_trans hij hj
  rw [List.getD_eq_getElem l 0 hi, List.getD_eq_getElem l 0 hj]
  rw [StrictAsc, List.pairwise_iff_getElem] at h
  exact h i j hi hj hij

theorem bisectLoop_spec (a : List ℚ) (x : ℚ)
    (mono : ∀ i j, i ≤ j → j < a.length → a.getD i 0 ≤ a.getD j 0) :
    ∀ fuel lo hi, lo ≤ hi → hi ≤ a.length → hi - lo ≤ fuel →
      (∀ i, i < lo → a.getD i 0 < x) →
      (∀ i, hi ≤ i → i < a.length → ¬a.getD i 0 < x) →
      lo ≤ bisectLoop a x fuel lo hi ∧ bisectLoop a x fuel lo hi ≤ hi ∧
      (∀ i, i < bisectLoop a x fuel lo hi → a.getD i 0 < x) ∧
      (∀ i, bisectLoop a x fuel lo hi ≤ i → i < a.length → ¬a.getD i 0 < x) := by
  intro fuel
  induction fuel with
  | zero =>
    intro lo hi hlohi hhi hfuel hlow hhigh
    have heq : lo = hi := by omega
    subst heq
    exact ⟨le_refl _, le_refl _, hlow, fun i h1 h2 => hhigh i h1 h2⟩
  | succ n ih =>
    intro lo hi hlohi hhi hfuel hlow hhigh
    rw [bisectLoop]
    by_cases hlt : lo < hi
    · rw [if_pos hlt]
      have hmlo : lo ≤ (lo + hi) / 2 := by omega
      have hmhi : (lo + hi) / 2 < hi := by omega
      by_cases hv : a.getD ((lo + hi) / 2) 0 < x
      · rw [if_pos hv]
        have hres := ih ((lo + hi) / 2 + 1) hi (by omega) hhi (by omega)
          (fun i hi2 => lt_of_le_of_lt
            (mono i ((lo + hi) / 2) (by omega) (by omega)) hv)
          hhigh
        exact ⟨by omega, hres.2.1, hres.2.2⟩
      · rw [if_neg hv]
        have hres := ih lo ((lo + hi) / 2) hmlo (by omega) (by omega) hlow
          (fun i hle hilen hcon =>
            hv (lt_of_le_of_lt (mono ((lo + hi) / 2) i hle hilen) hcon))
        exact ⟨hres.1, by omega, hres.2.2⟩
    · rw [if_neg hlt]
      have heq : lo = hi := by omega
      exact ⟨le_refl _, le_of_eq heq, hlow, fun i h1 h2 => hhigh i (heq ▸ h1) h2⟩

theorem bisect_left_sorted (a : List ℚ) (x : ℚ) (h : StrictAsc a) :
    bisect_left a x ≤ a.length ∧
    (∀ i, i < bisect_left a x → a.getD i 0 < x) ∧
    (∀ i, bisect_left a x ≤ i → i < a.length → x ≤ a.getD i 0) := by
  have mono : ∀ i j, i ≤ j → j < a.length → a.getD i 0 ≤ a.getD j 0 := by
    intro i j hij hj
    rcases eq_or_lt_of_le hij with rfl | hlt
    · exact le_refl _
    · exact le_of_lt (h.getD_lt hlt hj)
  have hres := bisectLoop_spec a x mono a.length 0 a.length
    (Nat.zero_le _) (le_refl _) (by omega)
    (fun i hi => absurd hi (Nat.not_lt_zero i))
    (fun i h1 h2 => absurd h2 (by omega))
  exact ⟨hres.2.1, hres.2.2.1, fun i h1 h2 => not_lt.mp (hres.2.2.2 i h1 h2)⟩

theorem bisect_left_at_sample (a : List ℚ) (h : StrictAsc a) {k : ℕ}
    (hk : k < a.length) : bisect_left a (a.getD k 0) = k := by
  obtain ⟨hle, hlow, hhigh⟩ := bisect_left_sorted a (a.getD k 0) h
  by_contra hne
  rcases lt_or_gt_of_ne hne with hlt | hgt
  · have := hhigh (bisect_left a (a.getD k 0)) (le_refl _) (lt_trans hlt hk)
    have := h.getD_lt hlt hk
    linarith
  · exact lt_irrefl _ (hlow k hgt)

theorem convex_combo_bounds {a b t M : ℚ} (ht0 : 0 ≤ t) (ht1 : t ≤ 1)
    (ha : 0 ≤ a) (ha' : a ≤ M) (hb : 0 ≤ b) (hb' : b ≤ M) :
    0 ≤ a * (1 - t) + b * t ∧ a * (1 - t) + b * t ≤ M := by
  constructor <;> nlinarith

/-- Index and weight bounds for the theta bracket on a nonempty strictly
increasing axis: both indices stay inside the axis and the weight lies in
`[0, 1]`, in every branch including the past-the-end collapse. -/
theorem bracketTheta_bounds (axis : List ℚ) (v : ℚ) (h : StrictAsc axis)
    (hne : axis ≠ []) :
    (bracketTheta axis v).1 < axis.length ∧
    (bracketTheta axis v).2.1 < axis.length ∧
    0 ≤ (bracketTheta axis v).2.2 ∧ (bracketTheta axis v).2.2 ≤ 1 := by
  have hlen : 0 < axis.length := List.length_pos.mpr hne
  obtain ⟨hle, hlow, hhigh⟩ := bisect_left_sorted axis v h
  rw [bracketTheta]
  by_cases h0 : bisect_left axis v = 0
  · rw [if_pos h0]
    exact ⟨hlen, hlen, le_refl _, zero_le_one⟩
  · rw [if_neg h0]
    by_cases hmid : bisect_left axis v ≤ axis.length - 1
    · rw [if_pos hmid]
      have hrlen : bisect_left axis v < axis.length := by omega
      have hinf : axis.getD (bisect_left axis v - 1) 0 < v :=
        hlow _ (by omega)
      have hsup : v ≤ axis.getD (bisect_left axis v) 0 :=
        hhigh _ (le_refl _) hrlen
      have hd : axis.getD (bisect_left axis v - 1) 0 <
          axis.getD (bisect_left axis v) 0 :=
        h.getD_lt (by omega) hrlen
      refine ⟨by omega, hrlen, ?_, ?_⟩
      · apply div_nonneg (by linarith) (by linarith)
      · rw [div_le_one (by linarith)]
        linarith
    · rw [if_neg hmid]
      have h1 : bisect_left axis v - 1 < axis.length := by omega
      exact ⟨h1, h1, le_refl _, zero_le_one⟩

/-- Index and weight bounds for the phi bracket, under the resampler's
precondition that the folded azimuth does not exceed the last azimuth
sample: the binary search then never lands past the end, so the
`indexSupPhi = indexInfPhi + 1` branch is not taken. -/
theorem bracketPhi_bounds (axis : List ℚ) (v : ℚ) (h : StrictAsc axis)
    (hne : axis ≠ []) (hv : v ≤ axis.getD (axis.length - 1) 0) :
    (bracketPhi axis v).1 < axis.length ∧
    (bracketPhi axis v).2.1 < axis.length ∧
    0 ≤ (bracketPhi axis v).2.2 ∧ (bracketPhi axis v).2.2 ≤ 1 := by
  have hlen : 0 < axis.length := List.length_pos.mpr hne
  obtain ⟨hle, hlow, hhigh⟩ := bisect_left_sorted axis v h
  have hnotend : bisect_left axis v ≤ axis.length - 1 := by
    by_contra hcon
    have hr : bisect_left axis v = axis.length := by omega
    have := hlow (axis.length - 1) (by omega)
    linarith
  rw [bracketPhi]
  by_cases h0 : bisect_left axis v = 0
  · rw [if_pos h0]
    exact ⟨hlen, hlen, le_refl _, zero_le_one⟩
  · rw [if_neg h0, if_pos hnotend]
    have hrlen : bisect_left axis v < axis.length := by omega
    have hinf : axis.getD (bisect_left axis v - 1) 0 < v := hlow _ (by omega)
    have hsup : v ≤ axis.getD (bisect_left axis v) 0 :=
      hhigh _ (le_refl _) hrlen
    have hd : axis.getD (bisect_left axis v - 1) 0 <
        axis.getD (bisect_left axis v) 0 :=
      h.getD_lt (by omega) hrlen
    refine ⟨by omega, hrlen, ?_, ?_⟩
    · apply div_nonneg (by linarith) (by linarith)
    · rw [div_le_one (by linarith)]
      linarith

/-- At an exact axis sample the theta bracket either collapses to index 0
with weight 0 (sample 0) or straddles with weight exactly 1. -/
theorem bracketTheta_at_sample (axis : List ℚ) (h : StrictAsc axis) {k : ℕ}
    (hk : k < axis.length) :
    (k = 0 ∧ bracketTheta axis (axis.getD k 0) = (0, 0, 0)) ∨
    (1 ≤ k ∧ bracketTheta axis (axis.getD k 0) = (k - 1, k, 1)) := by
  have hb := bisect_left_at_sample axis h hk
  rcases Nat.eq_zero_or_pos k with rfl | hpos
  · left
    exact ⟨rfl, by rw [bracketTheta, hb]; simp⟩
  · right
    refine ⟨hpos, ?_⟩
    rw [bracketTheta, hb, if_neg (by omega), if_pos (by omega)]
    have hd : axis.getD (k - 1) 0 < axis.getD k 0 := h.getD_lt (by omega) hk
    rw [div_self (by linarith)]

/-- Same statement for the phi bracket (the two searches share the in-range
branches; they differ only past the end, which an exact sample never hits). -/
theorem bracketPhi_at_sample (axis : List ℚ) (h : StrictAsc axis) {k : ℕ}
    (hk : k < axis.length) :
    (k = 0 ∧ bracketPhi axis (axis.getD k 0) = (0, 0, 0)) ∨
    (1 ≤ k ∧ bracketPhi axis (axis.getD k 0) = (k - 1, k, 1)) := by
  have hb := bisect_left_at_sample axis h hk
  rcases Nat.eq_zero_or_pos k with rfl | hpos
  · left
    exact ⟨rfl, by rw [bracketPhi, hb]; simp⟩
  · right
    refine ⟨hpos, ?_⟩
    rw [bracketPhi, hb, if_neg (by omega), if_pos (by omega)]
    have hd : axis.getD (k - 1) 0 < axis.getD k 0 := h.getD_lt (by omega) hk
    rw [div_self (by linarith)]

/-- Claim C1 (refuted; code bug).  The claim says every past-the-end binary
search collapses both bracketing indices to the last axis index with weight
0, so the four corner lookups never index outside the source block, also on
the phi axis.  On the azimuth axis `[0, 90]` with folded azimuth `100` the
search returns 2 (past the last index 1), and the phi bracket is
`(1, 2, 0)`: its upper index equals the axis length 2, one past the last
index, so `bsdfData[i][j][indexSupPhi][...]` raises `IndexError`.  The theta
bracket on the same input does collapse to `(1, 1, 0)` as claimed. -/
theorem claim_C1_phi_upper_bracket_escapes_block :
    bracketPhi [0, 90] 100 = (1, 2, 0) ∧ ([0, 90] : List ℚ).length = 2 ∧
    bracketTheta [0, 90] 100 = (1, 1, 0) := by
  decide

/-- Claim C2 (refuted; code bug).  The claim says a slice whose integral is
≤ 0 is left unchanged.  In the source, `normalizationBsdf[i][j] == 1` is a
comparison, not an assignment, so the factor keeps its `np.zeros` value 0
and line 998 multiplies the block by 0: a constant-5 block becomes 0, not 5.
The positive-integral path does scale by exactly `TIS / integral` (third
conjunct: raw integral 2, TIS 1/2, value 5 ↦ 5 · (1/2)/2). -/
theorem claim_C2_degenerate_integral_zeroes_block :
    (normalizeSlice (1 / 2) 0 (fun _ _ => 5)).2 0 0 = 0 ∧ (5 : ℚ) ≠ 0 ∧
    (normalizeSlice (1 / 2) 2 (fun _ _ => 5)).2 0 0 = 5 * ((1 / 2) / 2) := by
  refine ⟨?_, by norm_num, ?_⟩ <;> norm_num [normalizeSlice]

/-- Claim C3 (refuted; code bug).  The claim says a token-count mismatch is
a non-fatal warning and processing continues with the parsed values.  The
source assigns the axis list only in the `else` branch, so on a mismatch the
warning is printed (`true`) but the parsed values are discarded (`none`) and
the reader's own `return` statement raises `UnboundLocalError` — the job
aborts.  The matching case (second conjunct) does bind the values. -/
theorem claim_C3_axis_mismatch_leaves_axis_unbound :
    read_zemax_axis 2 ["0.0"] = (true, none) ∧
    read_zemax_axis 1 ["0.0"] = (false, some [0]) := by
  have hs : splitOnChar '.' "0.0".data = [['0'], ['0']] := by decide
  have hd : dropTrailingEmpty ["0.0"] = ["0.0"] := by decide
  constructor
  · rw [read_zemax_axis, hd]
    simp
  · rw [read_zemax_axis, hd]
    simp only [List.length_singleton, List.mapM_cons, List.mapM_nil]
    have c0 : '0'.isDigit = true := by decide
    have t0 : '0'.toNat - 48 = 0 := by decide
    norm_num [pyFloatQ, hs, digitsToNat, c0, t0]

/-- Claim C5 (refuted; code bug).  The claim says a Speos file whose second
line carries binary flag 0 is fatally rejected.  The source compares
`textorbinary[0]` (a `str`) with the `int` literal `0`; in Python a
`str`-`int` comparison with `==` is always `False`, so the abort branch is
unreachable for every possible second line — in particular for the binary
flag line `"0\n"` itself — and the reader continues into the data section. -/
theorem claim_C5_binary_flag_check_never_fires :
    ∀ line2 : String, speosBinaryFlagAborts line2 = false :=
  fun _ => rfl

/-- Witness for claim C5 at the concrete binary-flag line `"0\n"`. -/
theorem claim_C5_binary_flag_check_never_fires_witness :
    speosBinaryFlagAborts "0\n" = false :=
  claim_C5_binary_flag_check_never_fires "0\n"

/-- Claim C10 (confirmed).  The Speos writer's first header line carries the
fixed version token `v7.0`; the Speos reader extracts the last
space-separated token of that line, parses the digits after the leading
character, and fatally rejects any version below 8.0.  Hence a file produced
by the converter's own Speos writer is always rejected by its own Speos
reader. -/
theorem claim_C10_writer_output_rejected_by_reader :
    String.mk ((splitOnChar ' ' (pyDropLastChar speos_header_line1).data).getLastD [])
      = "v7.0" ∧
    speosReaderVersion speos_header_line1 = some 7 ∧
    speosReaderRejectsVersion speos_header_line1 = true := by
  have htok :
      ((splitOnChar ' ' (pyDropLastChar speos_header_line1).data).getLastD []).drop 1
        = "7.0".data := by decide
  have hsplit : splitOnChar '.' "7.0".data = [['7'], ['0']] := by decide
  have hv : speosReaderVersion speos_header_line1 = some 7 := by
    rw [speosReaderVersion, htok]
    have c0 : '0'.isDigit = true := by decide
    have c7 : '7'.isDigit = true := by decide
    have t0 : '0'.toNat - 48 = 0 := by decide
    have t7 : '7'.toNat - 48 = 7 := by decide
    norm_num [pyFloatQ, hsplit, digitsToNat, c0, c7, t0, t7]
  refine ⟨by decide, hv, ?_⟩
  rw [speosReaderRejectsVersion, hv]
  norm_num

theorem bilinearBlend_bounds {block : ℕ → ℕ → ℚ} {tb pb : ℕ × ℕ × ℚ} {M : ℚ}
    (ht0 : 0 ≤ tb.2.2) (ht1 : tb.2.2 ≤ 1) (hp0 : 0 ≤ pb.2.2) (hp1 : pb.2.2 ≤ 1)
    (h11 : 0 ≤ block pb.1 tb.1 ∧ block pb.1 tb.1 ≤ M)
    (h12 : 0 ≤ block pb.1 tb.2.1 ∧ block pb.1 tb.2.1 ≤ M)
    (h21 : 0 ≤ block pb.2.1 tb.1 ∧ block pb.2.1 tb.1 ≤ M)
    (h22 : 0 ≤ block pb.2.1 tb.2.1 ∧ block pb.2.1 tb.2.1 ≤ M) :
    0 ≤ bilinearBlend block tb pb ∧ bilinearBlend block tb pb ≤ M := by
  have hN1 := convex_combo_bounds ht0 ht1 h11.1 h11.2 h12.1 h12.2
  have hN2 := convex_combo_bounds ht0 ht1 h21.1 h21.2 h22.1 h22.2
  exact convex_combo_bounds hp0 hp1 hN1.1 hN1.2 hN2.1 hN2.2

/-- Claim C7 (confirmed).  When the transformed and folded source
coordinates coincide with a source grid point `(radial[a], azimuth[b])` on
strictly increasing axes, every bracket weight is 0 or 1 and the bilinear
blend returns exactly the stored source sample `block b a`. -/
theorem claim_C7_exact_grid_point_reproduces_source
    (symmetry : Symmetry) (radial azimuth : List ℚ) (block : ℕ → ℕ → ℚ)
    (newTheta newPhi : ℚ) {a b : ℕ}
    (hrad : StrictAsc radial) (haz : StrictAsc azimuth)
    (ha : a < radial.length) (hb : b < azimuth.length)
    (hth : newTheta = radial.getD a 0)
    (hph : foldPhi symmetry newPhi = azimuth.getD b 0)
    (h0 : 0 ≤ newTheta) (h90 : newTheta ≤ 90) :
    resampleCell symmetry radial azimuth block newTheta newPhi = block b a := by
  rw [resampleCell, if_neg (by push_neg; constructor <;> linarith)]
  show bilinearBlend block (bracketTheta radial newTheta)
    (bracketPhi azimuth (foldPhi symmetry newPhi)) = block b a
  rw [hph, hth]
  rcases bracketTheta_at_sample radial hrad ha with ⟨ha0, hbt⟩ | ⟨ha1, hbt⟩ <;>
    rcases bracketPhi_at_sample azimuth haz hb with ⟨hb0, hbp⟩ | ⟨hb1, hbp⟩ <;>
    rw [hbt, hbp] <;>
    simp only [bilinearBlend] <;>
    first
      | (subst ha0; subst hb0; ring)
      | (subst ha0; ring)
      | (subst hb0; ring)
      | ring

/-- Witness for claim C7 at a concrete grid: the target cell
`(theta, phi) = (90, 180)` lies exactly on source sample indices
`(a, b) = (2, 1)` of the axes `[0, 45, 90]` and `[0, 180, 360]`, and the
resampler reproduces the stored value. -/
theorem claim_C7_exact_grid_point_reproduces_source_witness :
    StrictAsc ([0, 45, 90] : List ℚ) ∧
    resampleCell .Asymmetrical [0, 45, 90] [0, 180, 360]
      (fun p t => (p * 3 + t : ℚ)) 90 180 = (fun p t => (p * 3 + t : ℚ)) 1 2 :=
  ⟨by decide,
    claim_C7_exact_grid_point_reproduces_source .Asymmetrical [0, 45, 90]
      [0, 180, 360] (fun p t => (p * 3 + t : ℚ)) 90 180 (by decide) (by decide)
      (by decide) (by decide) (by decide) (by decide) (by decide) (by decide)⟩

/-- Claim C9 (confirmed).  A resampled cell is 0 for unreachable directions
(transformed theta outside `[0, 90]`), and otherwise a bilinear blend with
both weights in `[0, 1]` of four in-range source samples; hence with
non-negative source values bounded by `M` the output lies in `[0, M]`.
Preconditions as claimed: both source axes strictly increasing (and
nonempty), folded azimuth not exceeding the last azimuth sample. -/
theorem claim_C9_resampled_cell_bounded
    (symmetry : Symmetry) (radial azimuth : List ℚ) (block : ℕ → ℕ → ℚ)
    (M newTheta newPhi : ℚ)
    (hrad : StrictAsc radial) (haz : StrictAsc azimuth)
    (hrne : radial ≠ []) (hane : azimuth ≠ [])
    (hlast : foldPhi symmetry newPhi ≤ azimuth.getD (azimuth.length - 1) 0)
    (hblock : ∀ p t, p < azimuth.length → t < radial.length →
      0 ≤ block p t ∧ block p t ≤ M) :
    0 ≤ resampleCell symmetry radial azimuth block newTheta newPhi ∧
    resampleCell symmetry radial azimuth block newTheta newPhi ≤ M ∧
    ((newTheta > 90 ∨ newTheta < 0) →
      resampleCell symmetry radial azimuth block newTheta newPhi = 0) := by
  have hrlen : 0 < radial.length := List.length_pos.mpr hrne
  have halen : 0 < azimuth.length := List.length_pos.mpr hane
  have hM : 0 ≤ M :=
    le_trans (hblock 0 0 halen hrlen).1 (hblock 0 0 halen hrlen).2
  by_cases hout : newTheta > 90 ∨ newTheta < 0
  · rw [resampleCell, if_pos hout]
    exact ⟨le_refl _, hM, fun _ => rfl⟩
  · rw [resampleCell, if_neg hout]
    obtain ⟨hti, hts, htc0, htc1⟩ := bracketTheta_bounds radial newTheta hrad hrne
    obtain ⟨hpi, hps, hpc0, hpc1⟩ :=
      bracketPhi_bounds azimuth (foldPhi symmetry newPhi) haz hane hlast
    have hbb := bilinearBlend_bounds htc0 htc1 hpc0 hpc1
      (hblock _ _ hpi hti) (hblock _ _ hpi hts)
      (hblock _ _ hps hti) (hblock _ _ hps hts)
    exact ⟨hbb.1, hbb.2, fun hcon => absurd hcon hout⟩

/-- Witness for claim C9 at a concrete grid: an all-ones source block on the
axes `[0, 45, 90]` and `[0, 180, 360]` resamples to a value in `[0, 1]` at
the off-grid target `(theta, phi) = (30, 100)`. -/
theorem claim_C9_resampled_cell_bounded_witness :
    StrictAsc ([0, 45, 90] : List ℚ) ∧
    0 ≤ resampleCell .Asymmetrical [0, 45, 90] [0, 180, 360] (fun _ _ => 1) 30 100 ∧
    resampleCell .Asymmetrical [0, 45, 90] [0, 180, 360] (fun _ _ => 1) 30 100 ≤ 1 :=
  ⟨by decide,
    (claim_C9_resampled_cell_bounded .Asymmetrical [0, 45, 90] [0, 180, 360]
      (fun _ _ => 1) 1 30 100 (by decide) (by decide) (by decide) (by decide)
      (by decide) (fun p t _ _ => by norm_num)).1,
    (claim_C9_resampled_cell_bounded .Asymmetrical [0, 45, 90] [0, 180, 360]
      (fun _ _ => 1) 1 30 100 (by decide) (by decide) (by decide) (by decide)
      (by decide) (fun p t _ _ => by norm_num)).2.1⟩

/-- The source's two-step rounding — `round(x, 1)` followed by
`round_to_multiple(·, 0.5)` — lands on the same half-degree multiple as
rounding `x` to the nearest half directly (ties to even in both readings). -/
theorem round_to_multiple_pyRound1 (x : ℚ) :
    round_to_multiple (pyRoundDigits x 1) (1 / 2) = nearestHalfMultiple x := by
  rw [round_to_multiple, pyRoundDigits, nearestHalfMultiple]
  have harg : ((roundHalfEven (x * 10 ^ 1) : ℚ) / 10 ^ 1) / (1 / 2)
      = (roundHalfEven (x * 10) : ℚ) / 5 := by
    norm_num
    ring
  rw [harg]
  have hmain : roundHalfEven ((roundHalfEven (x * 10) : ℚ) / 5)
      = roundHalfEven (2 * x) := by
    by_cases htie : ∃ j : ℤ, 2 * x = (j : ℚ) + 1 / 2
    · obtain ⟨j, hj⟩ := htie
      have h10 : x * 10 = ((5 * j + 2 : ℤ) : ℚ) + 1 / 2 := by
        push_cast
        linarith
      rw [h10, roundHalfEven_int_add_half, hj, roundHalfEven_int_add_half]
      have hpar : (Even (5 * j + 2)) ↔ Even j := by
        rw [Int.even_iff, Int.even_iff]
        omega
      by_cases hev : Even j
      · rw [if_pos (hpar.mpr hev), if_pos hev]
        apply roundHalfEven_eq_of_abs_lt (j := j)
        rw [show ((5 * j + 2 : ℤ) : ℚ) / 5 - j = 2 / 5 by push_cast; ring]
        rw [abs_of_nonneg (by norm_num : (0 : ℚ) ≤ 2 / 5)]
        norm_num
      · rw [if_neg (fun h => hev (hpar.mp h)), if_neg hev]
        apply roundHalfEven_eq_of_abs_lt (j := j + 1)
        rw [show ((5 * j + 2 + 1 : ℤ) : ℚ) / 5 - ((j + 1 : ℤ) : ℚ) = -(2 / 5) by
          push_cast; ring]
        rw [abs_neg, abs_of_nonneg (by norm_num : (0 : ℚ) ≤ 2 / 5)]
        norm_num
    · push_neg at htie
      have hb : |(roundHalfEven (2 * x) : ℚ) - 2 * x| ≤ 1 / 2 :=
        abs_roundHalfEven_sub_le _
      have hne : |(roundHalfEven (2 * x) : ℚ) - 2 * x| ≠ 1 / 2 := by
        intro hcon
        rcases (abs_eq (by norm_num)).mp hcon with hc | hc
        · exact htie (roundHalfEven (2 * x) - 1) (by push_cast; linarith)
        · exact htie (roundHalfEven (2 * x)) (by linarith)
      have hblt : |(roundHalfEven (2 * x) : ℚ) - 2 * x| < 1 / 2 :=
        lt_of_le_of_ne hb hne
      have hkb : |(roundHalfEven (x * 10) : ℚ) - x * 10| ≤ 1 / 2 :=
        abs_roundHalfEven_sub_le _
      rw [abs_lt] at hblt
      rw [abs_le] at hkb
      have hcast : ((|roundHalfEven (x * 10) - 5 * roundHalfEven (2 * x)| : ℤ) : ℚ)
          = |(roundHalfEven (x * 10) : ℚ) - 5 * (roundHalfEven (2 * x) : ℚ)| := by
        push_cast
        ring_nf
      have h5 : |(roundHalfEven (x * 10) : ℚ) - 5 * (roundHalfEven (2 * x) : ℚ)|
          < 3 := by
        rw [abs_lt]
        constructor <;> linarith
      have h5z : |roundHalfEven (x * 10) - 5 * roundHalfEven (2 * x)| ≤ 2 := by
        have h5z' : |roundHalfEven (x * 10) - 5 * roundHalfEven (2 * x)| < 3 := by
          rw [← hcast] at h5
          exact_mod_cast h5
        omega
      apply roundHalfEven_eq_of_abs_lt (j := roundHalfEven (2 * x))
      have hq : |(roundHalfEven (x * 10) : ℚ) - 5 * (roundHalfEven (2 * x) : ℚ)|
          ≤ 2 := by
        rw [← hcast]
        exact_mod_cast h5z
      rw [show (roundHalfEven (x * 10) : ℚ) / 5 - (roundHalfEven (2 * x) : ℚ)
          = ((roundHalfEven (x * 10) : ℚ) - 5 * (roundHalfEven (2 * x) : ℚ)) / 5 by
        ring]
      rw [abs_div]
      rw [abs_of_pos (by norm_num : (0 : ℚ) < 5)]
      linarith
  rw [hmain]
  ring

/-- Claim C8 (confirmed).  For `PlaneSymmetrical` symmetry and an azimuth
axis of length at most 1000 (and at least 2, which the claim's quantity
`180/(len-1)` presumes), the recommended `precisionPhi` is the nearest
half-degree multiple of `180/(len(scatterAzimuth)-1)`; with a radial axis of
length 181 the recommended `precisionTheta` is the nearest half-degree
multiple of `90/180`. -/
theorem claim_C8_recommended_precision_nearest_half
    (radial azimuth : List ℚ)
    (h2 : 2 ≤ azimuth.length) (h1000 : azimuth.length ≤ 1000)
    (hr : radial.length = 181) :
    (phi_theta_recommended_precision radial azimuth .PlaneSymmetrical).2
      = nearestHalfMultiple (180 / ((azimuth.length : ℚ) - 1)) ∧
    (phi_theta_recommended_precision radial azimuth .PlaneSymmetrical).1
      = nearestHalfMultiple (90 / 180) := by
  have hrn : ¬(radial.length > 1000) := by omega
  have han : ¬(azimuth.length > 1000) := by omega
  rw [phi_theta_recommended_precision]
  simp only [hr, if_neg hrn, if_neg han, reduceIte,
    if_neg (show ¬((181 : ℕ) > 1000) by norm_num)]
  constructor
  · rw [round_to_multiple_pyRound1]
  · rw [round_to_multiple_pyRound1]
    norm_num

/-- Witness for claim C8: an azimuth axis of 7 samples yields
`precisionPhi = 30` (the nearest half multiple of `180/6`), and a radial
axis of 181 samples yields `precisionTheta = 0.5`. -/
theorem claim_C8_recommended_precision_nearest_half_witness :
    2 ≤ (List.replicate 7 (0 : ℚ)).length ∧
    (phi_theta_recommended_precision (List.replicate 181 (0 : ℚ))
        (List.replicate 7 0) .PlaneSymmetrical).2
      = nearestHalfMultiple (180 / (((List.replicate 7 (0 : ℚ)).length : ℚ) - 1)) ∧
    (phi_theta_recommended_precision (List.replicate 181 (0 : ℚ))
        (List.replicate 7 0) .PlaneSymmetrical).1
      = nearestHalfMultiple (90 / 180) :=
  ⟨by rw [List.length_replicate]; norm_num,
    (claim_C8_recommended_precision_nearest_half _ _
      (by rw [List.length_replicate]; norm_num)
      (by rw [List.length_replicate]; norm_num)
      (by rw [List.length_replicate])).1,
    (claim_C8_recommended_precision_nearest_half _ _
      (by rw [List.length_replicate]; norm_num)
      (by rw [List.length_replicate]; norm_num)
      (by rw [List.length_replicate])).2⟩

theorem range_map_getD {α : Type} (f : ℕ → α) {n i : ℕ} (h : i < n) (d : α) :
    ((List.range n).map f).getD i d = f i := by
  rw [List.getD_eq_getElem ((List.range n).map f) d (by simpa using h)]
  simp

/-- Claim C6 counterexample.  The claim says the *Zemax* writer multiplies
each written BTDF value by `cos((180 - theta)·π/180)`.  For the constant
block 1 with `theta = 90` that factor is `cos(π/2) = 0`, so the claim
predicts a written value of 0; the Zemax writer actually writes the raw
value 1 (`write_zemax_data_bsdf` applies no cosine at all). -/
theorem claim_C6_zemax_writer_applies_no_cosine :
    ((write_zemax_data_values (fun _ _ => 1) 1 1).getD 0 []).getD 0 0 = 1 ∧
    Real.cos ((180 - 90) * (Real.pi / 180)) * 1 = 0 ∧ (1 : ℝ) ≠ 0 := by
  refine ⟨?_, ?_, one_ne_zero⟩
  · rw [write_zemax_data_values]
    simp
  · rw [show ((180 : ℝ) - 90) * (Real.pi / 180) = Real.pi / 2 by ring,
      Real.cos_pi_div_two, zero_mul]

/-- Claim C6 as amended (confirmed).  The cosine pre-multiplication
`cos((180 - theta)·π/180)` is applied by the *Speos* writer when it
serializes a BTDF dataset; the Speos writer leaves BRDF values unmodified,
and the Zemax writer writes every value unmodified (up to decimal
formatting), with no dependence on the scatter type. -/
theorem claim_C6_cosine_lives_in_speos_writer
    (line_theta : List ℝ) (block zblock : ℕ → ℕ → ℝ) (nbTheta nbPhi d2 d3 : ℕ)
    {k p l m : ℕ} (hk : k < nbTheta) (hp : p < nbPhi)
    (hm : m < d3) (hl : l < d2) :
    ((write_speos_data_values .BTDF line_theta block nbTheta nbPhi).getD k
        []).getD p 0
      = Real.cos ((180 - line_theta.getD k 0) * (Real.pi / 180)) * block k p ∧
    ((write_speos_data_values .BRDF line_theta block nbTheta nbPhi).getD k
        []).getD p 0 = block k p ∧
    ((write_zemax_data_values zblock d2 d3).getD m []).getD l 0 = zblock l m := by
  refine ⟨?_, ?_, ?_⟩
  · rw [write_speos_data_values, range_map_getD _ hk, range_map_getD _ hp]
  · rw [write_speos_data_values, range_map_getD _ hk, range_map_getD _ hp]
  · rw [write_zemax_data_values, range_map_getD _ hm, range_map_getD _ hl]

/-- Witness for the amended claim C6 at a concrete one-cell block with
`theta = 90`: the Speos BTDF value carries the cosine factor, the Speos BRDF
and the Zemax values are the raw sample. -/
theorem claim_C6_cosine_lives_in_speos_writer_witness :
    0 < 1 ∧
    (((write_speos_data_values .BTDF [90] (fun _ _ => 1) 1 1).getD 0 []).getD 0 0
      = Real.cos ((180 - ([90] : List ℝ).getD 0 0) * (Real.pi / 180)) * 1 ∧
    ((write_speos_data_values .BRDF [90] (fun _ _ => 1) 1 1).getD 0 []).getD 0 0
      = 1 ∧
    ((write_zemax_data_values (fun _ _ => (2 : ℝ)) 1 1).getD 0 []).getD 0 0 = 2) :=
  ⟨Nat.zero_lt_one,
    claim_C6_cosine_lives_in_speos_writer [90] (fun _ _ => 1) (fun _ _ => 2)
      1 1 1 1 Nat.zero_lt_one Nat.zero_lt_one Nat.zero_lt_one Nat.zero_lt_one⟩

section TransformRoundtrip

open Real

theorem n2s_small_theta_eval :
    convert_normal_to_specular_using_cartesian (1 / 1000) 0 0 = (1 / 1000, 180) := by
  have h0t : (0 : ℝ) < 1 / 1000 * (π / 180) := by positivity
  have htpi : 1 / 1000 * (π / 180) < π := by nlinarith [Real.pi_pos]
  have hsinpos : 0 < sin (1 / 1000 * (π / 180)) :=
    Real.sin_pos_of_pos_of_lt_pi h0t htpi
  have hpyth : sin (1 / 1000 * (π / 180)) * sin (1 / 1000 * (π / 180)) +
      cos (1 / 1000 * (π / 180)) * cos (1 / 1000 * (π / 180)) = 1 := by
    linear_combination Real.sin_sq_add_cos_sq (1 / 1000 * (π / 180))
  simp only [convert_normal_to_specular_using_cartesian]
  norm_num [Real.cos_zero, Real.sin_zero, hpyth, Real.sqrt_one,
    hsinpos.ne', not_lt.mpr hsinpos.le]
  rw [Real.arccos_cos (le_of_lt h0t) (le_of_lt htpi)]
  field_simp
  ring

theorem s2n_small_theta_eval :
    convert_specular_to_normal_using_cartesian (1 / 1000) 180 0 = (0, 180) := by
  have h0t : (0 : ℝ) < 1 / 1000 * (π / 180) := by positivity
  have htpi : 1 / 1000 * (π / 180) < π := by nlinarith [Real.pi_pos]
  have hsinpos : 0 < sin (1 / 1000 * (π / 180)) :=
    Real.sin_pos_of_pos_of_lt_pi h0t htpi
  have hsinlt : sin (1 / 1000 * (π / 180)) < 1 / 1000 * (π / 180) :=
    Real.sin_lt h0t
  have hpyth : sin (1 / 1000 * (π / 180)) * sin (1 / 1000 * (π / 180)) +
      cos (1 / 1000 * (π / 180)) * cos (1 / 1000 * (π / 180)) = 1 := by
    linear_combination Real.sin_sq_add_cos_sq (1 / 1000 * (π / 180))
  have hr1 : pyRoundDigits (sin (1 / 1000 * (π / 180))) 2 = 0 := by
    rw [pyRoundDigits,
      roundHalfEven_eq_of_abs_lt (j := 0) (by
        rw [Int.cast_zero, sub_zero,
          abs_of_pos (by positivity : (0 : ℝ) < sin (1 / 1000 * (π / 180)) * 10 ^ 2)]
        nlinarith [Real.pi_lt_d2])]
    norm_num
  have hr2 : pyRoundDigits ((1 : ℝ) / 1000) 2 = 0 := by
    rw [pyRoundDigits,
      roundHalfEven_eq_of_abs_lt (j := 0) (by
        rw [Int.cast_zero, sub_zero]
        rw [abs_of_pos (by norm_num : (0 : ℝ) < 1 / 1000 * 10 ^ 2)]
        norm_num)]
    norm_num
  have hr3 : pyRoundDigits ((180 : ℝ)) 2 = 180 := by
    rw [pyRoundDigits,
      roundHalfEven_eq_of_abs_lt (j := 18000) (by norm_num)]
    norm_num
  simp only [convert_specular_to_normal_using_cartesian]
  rw [show ((180 : ℝ) * (π / 180)) = π by ring]
  norm_num [Real.cos_zero, Real.sin_zero, Real.sin_pi, Real.cos_pi, hpyth,
    Real.sqrt_one, hr1, hsinpos.ne', not_lt.mpr hsinpos.le]
  rw [Real.arccos_cos (le_of_lt h0t) (le_of_lt htpi)]
  rw [show (1 / 1000 * (π / 180)) * (180 / π) = 1 / 1000 by field_simp; ring]
  rw [show π * (180 / π) = 180 by field_simp]
  exact ⟨hr2, hr3⟩

/-- Claim C4 (refuted; code bug).  The claim asserts the composed transform
returns the original `(theta, phi)` within `1e-6` degrees for every
`theta ∈ [0, 90]`.  At `theta = 0.001`, `phi = 0`, incidence `0`, the
forward transform yields `(0.001, 180)`, and the reverse transform rounds
its outputs to two decimals (`round(theta_o, 2)` in the source), returning
theta `0.0`: the round-trip error in theta is `0.001`, three orders of
magnitude above the claimed tolerance (CPython returns `(0.0, 270)` on this
input; the exact-real embedding differs only in the degenerate pole azimuth,
not in the rounded theta that refutes the claim). -/
theorem claim_C4_roundtrip_misses_tolerance :
    (convert_specular_to_normal_using_cartesian
        (convert_normal_to_specular_using_cartesian (1 / 1000) 0 0).1
        (convert_normal_to_specular_using_cartesian (1 / 1000) 0 0).2 0).1 = 0 ∧
    1 / 1000000 < |(0 : ℝ) - 1 / 1000| := by
  constructor
  · have hcomp : convert_specular_to_normal_using_cartesian
        (convert_normal_to_specular_using_cartesian (1 / 1000) 0 0).1
        (convert_normal_to_specular_using_cartesian (1 / 1000) 0 0).2 0
        = (0, 180) := by
      rw [n2s_small_theta_eval]
      exact s2n_small_theta_eval
    rw [hcomp]
  · rw [zero_sub, abs_neg, abs_of_pos (by norm_num : (0 : ℝ) < 1 / 1000)]
    norm_num

end TransformRoundtrip

end BsdfConv
